import Mathlib

/-!
Verification of the appcat-validation harness.

This file gives a shallow embedding of the incident normalization and
baseline-diff engine of the repository (package `testcase`, file
`testcase.go`, together with the aggregation code of the two `main.go`
variants), and proves the specified properties of the parser, the incident
key function, the baseline differ and the aggregator.

Go maps are modelled as association lists (`List (String × _)`); the
iteration order of a Go map is fixed by the order of the list.  Go strings
are modelled as Lean `String`s, with `strings.Index` modelled at the
character level.  File-system and logging side effects are dropped, except
where the control flow matters (`logger.Fatalf` of a standard `log.Logger`
terminates the process, which is modelled explicitly for the error-path
claims).
-/

/-- Semi-structured YAML value, modelling the values that
`gopkg.in/yaml.v3` decodes into a Go `interface{}` (used for the
`variables` field and for raw incident records). -/
inductive YamlValue where
  | nullv
  | str (s : String)
  | intv (n : Int)
  | boolv (b : Bool)
  | seq (xs : List YamlValue)
  | dict (kvs : List (String × YamlValue))

/-- The `Incident` struct of `testcase.go` (lines 72-78): `uri`, `message`,
`codeSnip` are strings, `variables` is untyped, `lineNumber` is a Go `int`. -/
structure Incident where
  Uri : String
  Message : String
  CodeSnip : String
  Variables : YamlValue
  LineNumber : Int

/-- The `Incident` struct of the older `main.go` (lines 15-21), whose
`lineNumber` field is `interface{}` rather than `int`. -/
structure IncidentU where
  Uri : String
  Message : String
  CodeSnip : String
  Variables : YamlValue
  LineNumber : YamlValue

/-- The `ValidateIncident` struct of `testcase.go` (lines 89-97). -/
structure ValidateIncident where
  RuleSet : String
  Rule : String
  Uri : String
  Message : String
  CodeSnip : String
  Variables : YamlValue
  LineNumber : Int

/-- The `Violation` struct of `testcase.go` (lines 80-82). -/
structure Violation where
  Incidents : List Incident

/-- The `RuleSet` struct of `testcase.go` (lines 84-87); the Go map
`Violations map[string]Violation` is modelled as an association list whose
order fixes one iteration order of the map. -/
structure RuleSet where
  Name : String
  Violations : List (String × Violation)

/-- Lookup in an association list modelling a Go map access `m[k]`
(first entry with the given key; a Go map has unique keys). -/
def lookupA {A : Type} (m : List (String × A)) (k : String) : Option A :=
  match m with
  | [] => none
  | kv :: rest => if kv.1 = k then some kv.2 else lookupA rest k

/-- Character-level model of Go `strings.Index`: the least index at which
`sub` occurs in `s`, or `none` when it does not occur (Go returns -1). -/
def firstIndexFrom (s sub : List Char) : Option Nat :=
  if sub.isPrefixOf s then some 0
  else
    match s with
    | [] => none
    | _ :: t => (firstIndexFrom t sub).map (fun n => n + 1)

/-- Model of `strings.Index(s, sub)` on Lean strings. -/
def stringsIndex (s sub : String) : Option Nat :=
  firstIndexFrom s.data sub.data

/-- The location normalization of `ParseAppCatOutput` (testcase.go lines
310-315): `tempPath := vIncident.Uri; startIndex := strings.Index(...);
if startIndex != -1 { tempPath = vIncident.Uri[startIndex:] }`. -/
def normalizeUri (name uri : String) : String :=
  match stringsIndex uri name with
  | some startIndex => String.mk (uri.data.drop startIndex)
  | none => uri

/-- The incident key of `ParseAppCatOutput` (testcase.go line 316):
`fmt.Sprintf("%s-%s-%s-%d", vIncident.RuleSet, vIncident.Rule, tempPath,
vIncident.LineNumber)`. -/
def incidentKeyGo (name : String) (v : ValidateIncident) : String :=
  v.RuleSet ++ "-" ++ v.Rule ++ "-" ++ normalizeUri name v.Uri ++ "-" ++ toString v.LineNumber

/-- The parser state threaded through the loops of `ParseAppCatOutput`
(testcase.go lines 285-287): `incidentsCount`, `ruleIncidentDetails`,
`incidentsDetails`. -/
structure ParseState where
  incidentsCount : Nat
  ruleIncidentDetails : List (String × Nat)
  incidentsDetails : List (String × ValidateIncident)

/-- Go `ruleIncidentDetails[ruleName]++`: increment an existing count, or
create the entry with count 1. -/
def bumpCount (m : List (String × Nat)) (k : String) : List (String × Nat) :=
  match m with
  | [] => [(k, 1)]
  | kv :: rest => if kv.1 = k then (kv.1, kv.2 + 1) :: rest else kv :: bumpCount rest k

/-- The duplicate check of `ParseAppCatOutput` (testcase.go lines 318-322):
insert only when the key is not yet present; a later incident with the same
key is discarded (only logged as a duplicate, never an error). -/
def insertIfAbsent (m : List (String × ValidateIncident)) (k : String) (v : ValidateIncident) :
    List (String × ValidateIncident) :=
  match lookupA m k with
  | some _ => m
  | none => m ++ [(k, v)]

/-- The `vIncident` construction of `ParseAppCatOutput` (testcase.go lines
300-308): all fields copied verbatim, plus the enclosing ruleset and rule
names. -/
def mkValidateIncident (rulesetName ruleName : String) (incident : Incident) : ValidateIncident :=
  { RuleSet := rulesetName
    Rule := ruleName
    Uri := incident.Uri
    CodeSnip := incident.CodeSnip
    Message := incident.Message
    LineNumber := incident.LineNumber
    Variables := incident.Variables }

/-- Body of the innermost loop of `ParseAppCatOutput` (testcase.go lines
296-322): count, per-rule count, key derivation, duplicate-checked insert.
The optional on-disk persistence of the incident (lines 324-332) is an I/O
side effect outside the return contract and is not modelled. -/
def processIncident (name rulesetName ruleName : String) (st : ParseState) (incident : Incident) :
    ParseState :=
  let vIncident := mkValidateIncident rulesetName ruleName incident
  let key := incidentKeyGo name vIncident
  { incidentsCount := st.incidentsCount + 1
    ruleIncidentDetails := bumpCount st.ruleIncidentDetails ruleName
    incidentsDetails := insertIfAbsent st.incidentsDetails key vIncident }

/-- The loop over one ruleset's violations map (testcase.go lines 292-337). -/
def processViolations (name rulesetName : String) (st : ParseState)
    (violations : List (String × Violation)) : ParseState :=
  violations.foldl (fun st p => p.2.Incidents.foldl (processIncident name rulesetName p.1) st) st

/-- The parsing loops of `ParseAppCatOutput` (testcase.go lines 285-342) on
an already-decoded document, for project name `name` (`tc.Name`). -/
def parseAppCatOutput (name : String) (doc : List RuleSet) : ParseState :=
  doc.foldl (fun st sec => processViolations name sec.Name st sec.Violations)
    { incidentsCount := 0, ruleIncidentDetails := [], incidentsDetails := [] }

/-- The flat stream of (key, normalized incident) pairs of a document, in
the traversal order of `ParseAppCatOutput`. -/
def violationPairs (name rulesetName ruleName : String) (violation : Violation) :
    List (String × ValidateIncident) :=
  violation.Incidents.map (fun incident =>
    (incidentKeyGo name (mkValidateIncident rulesetName ruleName incident),
      mkValidateIncident rulesetName ruleName incident))

/-- All (key, incident) pairs of a document in traversal order. -/
def incidentStream (name : String) (doc : List RuleSet) : List (String × ValidateIncident) :=
  (doc.map (fun sec =>
    (sec.Violations.map (fun p => violationPairs name sec.Name p.1 p.2)).flatten)).flatten

/-- One step of rebuilding `incidentsDetails` from the incident stream. -/
def insStep (m : List (String × ValidateIncident)) (kv : String × ValidateIncident) :
    List (String × ValidateIncident) :=
  insertIfAbsent m kv.1 kv.2

/-- Detail string for a key missing from the baseline (testcase.go line
373): `fmt.Sprintf("[NEW] : %s", key)`. -/
def newMsg (k : String) : String := "[NEW] : " ++ k

/-- Detail string for a message mismatch (testcase.go line 379):
`fmt.Sprintf("[WRONG] :%s message mismatch: %s != %s", key, ...)`. -/
def wrongMsg (k m1 m2 : String) : String :=
  "[WRONG] :" ++ k ++ " message mismatch: " ++ m1 ++ " != " ++ m2

/-- Detail string for a baseline key absent from the current set
(testcase.go line 390): `fmt.Sprintf("[MISS]: %s", key)`. -/
def missMsg (k : String) : String := "[MISS]: " ++ k

/-- First loop body of `RunValidate` (testcase.go lines 368-384): the
detail recorded for one current incident, `none` when it validates. -/
def validateDetail (baselineIncidents : List (String × ValidateIncident)) (key : String)
    (incident : ValidateIncident) : Option String :=
  match lookupA baselineIncidents key with
  | none => some (newMsg key)
  | some baselineIncident =>
      if incident.Message != baselineIncident.Message then
        some (wrongMsg key incident.Message baselineIncident.Message)
      else none

/-- The `resultDetails` map built by `RunValidate` (testcase.go lines
366-393): mismatch details for every current incident, followed by a
`[MISS]` entry for every baseline key absent from the current set. -/
def runValidateDetails (incidents baselineIncidents : List (String × ValidateIncident)) :
    List (String × String) :=
  incidents.filterMap
      (fun kv => (validateDetail baselineIncidents kv.1 kv.2).map (fun d => (kv.1, d)))
    ++ baselineIncidents.filterMap (fun kv =>
      match lookupA incidents kv.1 with
      | some _ => none
      | none => some (kv.1, missMsg kv.1))

/-- The `result` boolean of `RunValidate` (testcase.go lines 365-393): it
starts `true` and is set to `false` on every NEW, message-mismatch, or
MISS classification, so it is the conjunction of the per-entry checks. -/
def runValidateResult (incidents baselineIncidents : List (String × ValidateIncident)) : Bool :=
  incidents.all (fun kv =>
    match lookupA baselineIncidents kv.1 with
    | none => false
    | some baselineIncident => kv.2.Message == baselineIncident.Message)
  && baselineIncidents.all (fun kv => (lookupA incidents kv.1).isSome)

/-- Keys of the current set classified NEW (absent from the baseline). -/
def newKeys (incidents baselineIncidents : List (String × ValidateIncident)) : List String :=
  (incidents.filter (fun kv => (lookupA baselineIncidents kv.1).isNone)).map Prod.fst

/-- Keys of the current set classified CHANGED (present in the baseline
with a different `message`; no other field is compared). -/
def changedKeys (incidents baselineIncidents : List (String × ValidateIncident)) : List String :=
  (incidents.filter (fun kv =>
    match lookupA baselineIncidents kv.1 with
    | some baselineIncident => kv.2.Message != baselineIncident.Message
    | none => false)).map Prod.fst

/-- Keys of the baseline classified MISSING (absent from the current set). -/
def missingKeys (incidents baselineIncidents : List (String × ValidateIncident)) : List String :=
  (baselineIncidents.filter (fun kv => (lookupA incidents kv.1).isNone)).map Prod.fst

/-- `signs.PASS` (testcase.go line 30). -/
def signsPASS : String := "- [x]"

/-- `signs.FAIL` (testcase.go line 31). -/
def signsFAIL : String := "- [ ] :x:"

/-- `ItemResultFormat.PASS` applied to a name (testcase.go line 42). -/
def itemPASS (name : String) : String := signsPASS ++ " <b>" ++ name ++ "</b>."

/-- `ItemResultFormat.FAIL` applied to a name and details (line 43). -/
def itemFAIL (name details : String) : String :=
  signsFAIL ++ " <b>" ++ name ++ "</b>. \n\n" ++ details ++ "\n"

/-- `ItemResultFormat.DETAILS` applied to a details string (line 44). -/
def itemDETAILS (s : String) : String :=
  "  <details>\n  <summary> Details </summary>\n\n  " ++ s ++ "\n\n</details>"

/-- `lineDelimiter` (testcase.go line 21). -/
def lineDelimiter : String := "\n"

/-- The `details` accumulation of `Run` (testcase.go lines 152-155):
`details += value + lineDelimiter` over the case results. -/
def detailsConcat (caseResults : List (String × String)) : String :=
  caseResults.foldl (fun details kv => details ++ kv.2 ++ lineDelimiter) ""

/-- The validate branch of `Run` (testcase.go lines 142-159): PASS message
when `caseResults` is empty, otherwise FAIL with a details block. -/
def runCaseMessage (name : String) (incidents baselineIncidents : List (String × ValidateIncident)) :
    String :=
  let caseResults := runValidateDetails incidents baselineIncidents
  if caseResults.isEmpty then itemPASS name
  else itemFAIL name (itemDETAILS (detailsConcat caseResults))

/-- The error message shape of `gopkg.in/yaml.v3` when a scalar cannot be
decoded into a typed Go struct field. -/
def cannotUnmarshal (field ty : String) : String :=
  "yaml: cannot unmarshal value into Go struct field Incident." ++ field ++ " of type " ++ ty

/-- Models `gopkg.in/yaml.v3` decoding of a mapping entry into a Go
`string` field: an absent field keeps the zero value `""`; a non-string
value is a decode error. -/
def decodeStringField (kvs : List (String × YamlValue)) (field : String) : Except String String :=
  match lookupA kvs field with
  | none => .ok ""
  | some (.str s) => .ok s
  | some _ => .error (cannotUnmarshal field "string")

/-- Models `gopkg.in/yaml.v3` decoding of a mapping entry into a Go `int`
field: an absent field keeps the zero value `0`; a non-integer value is a
decode error that aborts `yaml.Unmarshal`. -/
def decodeIntField (kvs : List (String × YamlValue)) (field : String) : Except String Int :=
  match lookupA kvs field with
  | none => .ok 0
  | some (.intv n) => .ok n
  | some _ => .error (cannotUnmarshal field "int")

/-- Models `gopkg.in/yaml.v3` decoding of a mapping entry into a Go
`interface{}` field: any value is taken verbatim, an absent field is nil. -/
def decodeAnyField (kvs : List (String × YamlValue)) (field : String) : YamlValue :=
  match lookupA kvs field with
  | none => .nullv
  | some v => v

/-- Models `gopkg.in/yaml.v3` decoding of one raw incident mapping into the
typed `Incident` struct of `testcase.go` (`LineNumber int`): the fields are
copied verbatim, except `lineNumber` which is decoded as an integer. -/
def decodeIncidentTyped (kvs : List (String × YamlValue)) : Except String Incident := do
  let uri ← decodeStringField kvs "uri"
  let message ← decodeStringField kvs "message"
  let codeSnip ← decodeStringField kvs "codeSnip"
  let lineNumber ← decodeIntField kvs "lineNumber"
  .ok { Uri := uri, Message := message, CodeSnip := codeSnip,
        Variables := decodeAnyField kvs "variables", LineNumber := lineNumber }

/-- Models `gopkg.in/yaml.v3` decoding of one raw incident mapping into the
untyped `Incident` struct of the older `main.go` (`LineNumber interface{}`):
`lineNumber` is stored verbatim, never parsed and never a decode error. -/
def decodeIncidentUntyped (kvs : List (String × YamlValue)) : Except String IncidentU := do
  let uri ← decodeStringField kvs "uri"
  let message ← decodeStringField kvs "message"
  let codeSnip ← decodeStringField kvs "codeSnip"
  .ok { Uri := uri, Message := message, CodeSnip := codeSnip,
        Variables := decodeAnyField kvs "variables",
        LineNumber := decodeAnyField kvs "lineNumber" }

/-- The state of the input document of one `ParseAppCatOutput` call:
absent (`os.Stat` fails on output.yaml), present but not well-formed YAML,
or well-formed. -/
inductive ParseInput where
  | absent
  | malformed
  | wellFormed (doc : List RuleSet)

/-- Outcome of one `ParseAppCatOutput` call. `fatalExit` models
`logger.Fatalf` of the shared standard `log.Logger` (logger.go line 35),
which calls `os.Exit(1)` and terminates the whole process. -/
inductive ParseOutcome where
  | fatalExit
  | ok (st : ParseState)

/-- Control-flow model of the input handling of `ParseAppCatOutput`
(testcase.go lines 269-283): a missing `output.yaml` hits `logger.Fatalf`
(the `return ..., fmt.Errorf(...)` on line 272 is unreachable), as does a
YAML parse error (line 282, with no return statement at all); only a
well-formed document reaches the parsing loops. -/
def parseAppCatOutputIO (name : String) (input : ParseInput) : ParseOutcome :=
  match input with
  | .absent => .fatalExit
  | .malformed => .fatalExit
  | .wellFormed doc => .ok (parseAppCatOutput name doc)

/-- Go map assignment `m[k] = v` on an association list: replace the value
of an existing entry, or append a new entry. -/
def setAssoc {A : Type} (m : List (String × A)) (k : String) (v : A) : List (String × A) :=
  match m with
  | [] => [(k, v)]
  | kv :: rest => if kv.1 = k then (k, v) :: rest else kv :: setAssoc rest k v

/-- One step of the aggregation loop of `part_000` `main` (lines 166-173):
`if _, exists := globalRulesDetails[rule]; !exists { globalRulesDetails[rule]
= make(map[string]int) }; globalRulesDetails[rule][target] = count`. -/
def addRuleCount (target : String) (g : List (String × List (String × Nat)))
    (rc : String × Nat) : List (String × List (String × Nat)) :=
  match lookupA g rc.1 with
  | none => g ++ [(rc.1, [(target, rc.2)])]
  | some targetHash => setAssoc g rc.1 (setAssoc targetHash target rc.2)

/-- Folding one project's rule→count map into the global matrix. -/
def addProject (g : List (String × List (String × Nat))) (target : String)
    (rulesDetails : List (String × Nat)) : List (String × List (String × Nat)) :=
  rulesDetails.foldl (addRuleCount target) g

/-- The `globalRulesDetails` matrix accumulated over all projects
(`part_000` `main`, aggregation inside the per-project loop). -/
def aggregateAll (projects : List (String × List (String × Nat))) :
    List (String × List (String × Nat)) :=
  projects.foldl (fun g p => addProject g p.1 p.2) []

/-- The (rule, project) cell of the aggregated matrix: the stored count,
and 0 when the rule has no entry for that project. -/
def matrixCell (g : List (String × List (String × Nat))) (rule target : String) : Nat :=
  match lookupA g rule with
  | some targetHash =>
      match lookupA targetHash target with
      | some c => c
      | none => 0
  | none => 0

/-- The CSV row rendering of `part_000` `main` (lines 199-210): for each
target, `",%d"` when the rule has a count for it, `",0"` otherwise. -/
def rowValue0 (targetList : List String) (rule : String)
    (targetHash : List (String × Nat)) : String :=
  targetList.foldl (fun rowValue target =>
    match lookupA targetHash target with
    | some count => rowValue ++ "," ++ toString count
    | none => rowValue ++ ",0") rule

/-- The CSV row rendering of `src/main.go` of the `src` tree (lines
135-148): for each target, `",%d"` when that project's map has the rule,
`", "` (a blank cell, not 0) otherwise. -/
def rowValueBlank (targetList : List String) (rule : String)
    (fullIncidentDetails : List (String × List (String × Nat))) : String :=
  targetList.foldl (fun rowValue target =>
    match lookupA fullIncidentDetails target with
    | some targetHash =>
        match lookupA targetHash rule with
        | some count => rowValue ++ "," ++ toString count
        | none => rowValue ++ ", "
    | none => rowValue ++ ", ") rule

@[simp]
theorem lookupA_nil {A : Type} (k : String) : lookupA ([] : List (String × A)) k = none := rfl

theorem lookupA_cons {A : Type} (kv : String × A) (rest : List (String × A)) (k : String) :
    lookupA (kv :: rest) k = if kv.1 = k then some kv.2 else lookupA rest k := rfl

theorem lookupA_append {A : Type} (l1 l2 : List (String × A)) (k : String) :
    lookupA (l1 ++ l2) k =
      match lookupA l1 k with
      | some v => some v
      | none => lookupA l2 k := by
  induction l1 with
  | nil => simp
  | cons kv rest ih =>
      by_cases h : kv.1 = k <;> simp [lookupA_cons, h, ih]

theorem lookupA_eq_none_iff {A : Type} (m : List (String × A)) (k : String) :
    lookupA m k = none ↔ k ∉ m.map Prod.fst := by
  induction m with
  | nil => simp
  | cons kv rest ih =>
      by_cases h : kv.1 = k
      · simp [lookupA_cons, h]
      · simp [lookupA_cons, h, ih, Ne.symm h]

theorem lookupA_isSome_of_mem {A : Type} {m : List (String × A)} {kv : String × A}
    (h : kv ∈ m) : (lookupA m kv.1).isSome := by
  induction m with
  | nil => simp at h
  | cons kv2 rest ih =>
      rcases List.mem_cons.mp h with h1 | h1
      · subst h1; simp [lookupA_cons]
      · by_cases h2 : kv2.1 = kv.1 <;> simp [lookupA_cons, h2, ih h1]

theorem firstIndexFrom_sound (sub : List Char) :
    ∀ (s : List Char) (i : Nat), firstIndexFrom s sub = some i →
      sub.isPrefixOf (s.drop i) = true ∧ ∀ j, j < i → sub.isPrefixOf (s.drop j) = false := by
  intro s
  induction s with
  | nil =>
      intro i h
      rw [firstIndexFrom] at h
      cases hp : sub.isPrefixOf ([] : List Char) with
      | true =>
          simp [hp] at h
          subst h
          exact ⟨by simpa using hp, by omega⟩
      | false => simp [hp] at h
  | cons c t ih =>
      intro i h
      rw [firstIndexFrom] at h
      cases hp : sub.isPrefixOf (c :: t) with
      | true =>
          simp [hp] at h
          subst h
          exact ⟨by simpa using hp, by omega⟩
      | false =>
          simp [hp] at h
          obtain ⟨i0, hi0, hi⟩ := h
          obtain ⟨h1, h2⟩ := ih i0 hi0
          subst hi
          refine ⟨by simpa using h1, ?_⟩
          intro j hj
          cases j with
          | zero => simpa using hp
          | succ j0 => simpa using h2 j0 (by omega)

theorem firstIndexFrom_complete (sub : List Char) :
    ∀ (s : List Char), firstIndexFrom s sub = none →
      ∀ j, sub.isPrefixOf (s.drop j) = false := by
  intro s
  induction s with
  | nil =>
      intro h j
      rw [firstIndexFrom] at h
      cases hp : sub.isPrefixOf ([] : List Char) with
      | true => simp [hp] at h
      | false => simpa [List.drop_nil] using hp
  | cons c t ih =>
      intro h j
      rw [firstIndexFrom] at h
      cases hp : sub.isPrefixOf (c :: t) with
      | true => simp [hp] at h
      | false =>
          simp [hp] at h
          cases j with
          | zero => simpa using hp
          | succ j0 => simpa using ih h j0

/-- Claim C2: for every incident parsed with project name `name`, the
incident key is ruleSet, rule, normalized location and line number joined
with `"-"`, where the normalized location is the suffix of the raw location
starting at the first occurrence of the project name, and is the raw
location unchanged when the project name does not occur in it. -/
theorem c2_incident_key (name : String) (v : ValidateIncident) :
    incidentKeyGo name v =
      v.RuleSet ++ "-" ++ v.Rule ++ "-" ++ normalizeUri name v.Uri ++ "-"
        ++ toString v.LineNumber
    ∧ ((∀ j, name.data.isPrefixOf (v.Uri.data.drop j) = false) →
        normalizeUri name v.Uri = v.Uri)
    ∧ (∀ i, name.data.isPrefixOf (v.Uri.data.drop i) = true →
        (∀ j, j < i → name.data.isPrefixOf (v.Uri.data.drop j) = false) →
        normalizeUri name v.Uri = String.mk (v.Uri.data.drop i)) := by
  refine ⟨rfl, ?_, ?_⟩
  · intro h
    unfold normalizeUri stringsIndex
    cases hfi : firstIndexFrom v.Uri.data name.data with
    | none => rfl
    | some i =>
        obtain ⟨h1, _⟩ := firstIndexFrom_sound name.data v.Uri.data i hfi
        rw [h i] at h1
        exact absurd h1 (by simp)
  · intro i hp hmin
    unfold normalizeUri stringsIndex
    cases hfi : firstIndexFrom v.Uri.data name.data with
    | none =>
        have := firstIndexFrom_complete name.data v.Uri.data hfi i
        rw [hp] at this
        exact absurd this (by simp)
    | some i2 =>
        obtain ⟨h1, h2⟩ := firstIndexFrom_sound name.data v.Uri.data i2 hfi
        have hii : i = i2 := by
          rcases Nat.lt_trichotomy i i2 with h3 | h3 | h3
          · have := h2 i h3
            rw [hp] at this
            exact absurd this (by simp)
          · exact h3
          · have := hmin i2 h3
            rw [h1] at this
            exact absurd this (by simp)
        rw [hii]

/-- Witness for C2 at a concrete incident: project name `pr` first occurs
in `x/pr/y` at index 2, so the key uses the suffix `pr/y`. -/
theorem c2_incident_key_witness :
    incidentKeyGo "pr"
      { RuleSet := "rs", Rule := "ru", Uri := "x/pr/y", Message := "m",
        CodeSnip := "c", Variables := .nullv, LineNumber := 7 } = "rs-ru-pr/y-7" := by
  have h := (c2_incident_key "pr"
    { RuleSet := "rs", Rule := "ru", Uri := "x/pr/y", Message := "m",
      CodeSnip := "c", Variables := .nullv, LineNumber := 7 }).2.2 2 (by decide)
    (by decide)
  rw [h.symm] at *
  rfl

/-- Claim C5 (code bug): evaluating the parse at a missing or malformed
input document. `ParseAppCatOutput` reaches `logger.Fatalf`, which on the
shared standard `log.Logger` terminates the whole process: no failure
result tagged with the project name reaches the caller (the `return`
after the `Fatalf` on testcase.go line 272 is dead code), and the
remaining projects are not processed. -/
theorem c5_parse_failure_terminates :
    parseAppCatOutputIO "proj" ParseInput.absent = ParseOutcome.fatalExit
    ∧ parseAppCatOutputIO "proj" ParseInput.malformed = ParseOutcome.fatalExit :=
  ⟨rfl, rfl⟩

theorem foldl_hold {S A : Type} (P : S → Prop) (f : S → A → S)
    (hstep : ∀ s a, P s → P (f s a)) :
    ∀ (l : List A) (s : S), P s → P (l.foldl f s) := by
  intro l
  induction l with
  | nil => intro s hs; simpa using hs
  | cons a t ih => intro s hs; simpa using ih (f s a) (hstep s a hs)

theorem incidentsDetails_foldl_incidents (name rulesetName ruleName : String) :
    ∀ (l : List Incident) (st : ParseState),
      (l.foldl (processIncident name rulesetName ruleName) st).incidentsDetails =
        (violationPairs name rulesetName ruleName ⟨l⟩).foldl insStep st.incidentsDetails := by
  intro l
  induction l with
  | nil => intro st; rfl
  | cons inc t ih =>
      intro st
      simpa [violationPairs, processIncident, insStep] using
        ih (processIncident name rulesetName ruleName st inc)

theorem incidentsDetails_processViolations (name rulesetName : String) :
    ∀ (vs : List (String × Violation)) (st : ParseState),
      (processViolations name rulesetName st vs).incidentsDetails =
        ((vs.map (fun p => violationPairs name rulesetName p.1 p.2)).flatten).foldl insStep
          st.incidentsDetails := by
  intro vs
  induction vs with
  | nil => intro st; rfl
  | cons p t ih =>
      intro st
      have h1 := incidentsDetails_foldl_incidents name rulesetName p.1 p.2.Incidents st
      have hstep : processViolations name rulesetName st (p :: t) =
          processViolations name rulesetName
            (p.2.Incidents.foldl (processIncident name rulesetName p.1) st) t := by
        simp [processViolations]
      rw [hstep, ih]
      simp only [List.map_cons, List.flatten_cons, List.foldl_append]
      rw [h1]

theorem incidentsDetails_parse (name : String) (doc : List RuleSet) :
    (parseAppCatOutput name doc).incidentsDetails =
      (incidentStream name doc).foldl insStep [] := by
  suffices h : ∀ (ds : List RuleSet) (st : ParseState),
      (ds.foldl (fun st sec => processViolations name sec.Name st sec.Violations) st).incidentsDetails =
        ((ds.map (fun sec =>
          (sec.Violations.map (fun p => violationPairs name sec.Name p.1 p.2)).flatten)).flatten).foldl
            insStep st.incidentsDetails by
    exact h doc { incidentsCount := 0, ruleIncidentDetails := [], incidentsDetails := [] }
  intro ds
  induction ds with
  | nil => intro st; rfl
  | cons sec t ih =>
      intro st
      simp only [List.foldl_cons, List.map_cons, List.flatten_cons, List.foldl_append]
      rw [ih, incidentsDetails_processViolations]

theorem incidentsCount_foldl_incidents (name rulesetName ruleName : String) :
    ∀ (l : List Incident) (st : ParseState),
      (l.foldl (processIncident name rulesetName ruleName) st).incidentsCount =
        st.incidentsCount + l.length := by
  intro l
  induction l with
  | nil => intro st; simp
  | cons inc t ih =>
      intro st
      have := ih (processIncident name rulesetName ruleName st inc)
      simp only [List.foldl_cons] at *
      rw [this]
      simp [processIncident]
      omega

theorem incidentsCount_processViolations (name rulesetName : String) :
    ∀ (vs : List (String × Violation)) (st : ParseState),
      (processViolations name rulesetName st vs).incidentsCount =
        st.incidentsCount +
          ((vs.map (fun p => violationPairs name rulesetName p.1 p.2)).flatten).length := by
  intro vs
  induction vs with
  | nil => intro st; simp [processViolations]
  | cons p t ih =>
      intro st
      simp only [processViolations, List.foldl_cons, List.map_cons, List.flatten_cons,
        List.length_append] at *
      rw [ih, incidentsCount_foldl_incidents]
      simp [violationPairs]
      omega

theorem incidentsCount_parse (name : String) (doc : List RuleSet) :
    (parseAppCatOutput name doc).incidentsCount = (incidentStream name doc).length := by
  suffices h : ∀ (ds : List RuleSet) (st : ParseState),
      (ds.foldl (fun st sec => processViolations name sec.Name st sec.Violations) st).incidentsCount =
        st.incidentsCount + ((ds.map (fun sec =>
          (sec.Violations.map (fun p => violationPairs name sec.Name p.1 p.2)).flatten)).flatten).length by
    simpa [incidentStream, parseAppCatOutput] using
      h doc { incidentsCount := 0, ruleIncidentDetails := [], incidentsDetails := [] }
  intro ds
  induction ds with
  | nil => intro st; simp
  | cons sec t ih =>
      intro st
      simp only [List.foldl_cons, List.map_cons, List.flatten_cons, List.length_append]
      rw [ih, incidentsCount_processViolations]
      omega

theorem lookupA_insStep_foldl :
    ∀ (l : List (String × ValidateIncident)) (m : List (String × ValidateIncident)) (k : String),
      lookupA (l.foldl insStep m) k =
        match lookupA m k with
        | some v => some v
        | none => lookupA l k := by
  intro l
  induction l with
  | nil => intro m k; cases h : lookupA m k <;> simp [h]
  | cons kv t ih =>
      intro m k
      simp only [List.foldl_cons]
      rw [ih]
      by_cases hk : kv.1 = k
      · subst hk
        cases hm : lookupA m kv.1 with
        | some v => simp [insStep, insertIfAbsent, hm, lookupA_cons]
        | none =>
            simp [insStep, insertIfAbsent, hm, lookupA_append, lookupA_cons]
      · cases hm : lookupA m k with
        | some v =>
            cases hm2 : lookupA m kv.1 with
            | some w => simp [insStep, insertIfAbsent, hm2, hm]
            | none => simp [insStep, insertIfAbsent, hm2, lookupA_append, hm, lookupA_cons, hk]
        | none =>
            cases hm2 : lookupA m kv.1 with
            | some w => simp [insStep, insertIfAbsent, hm2, hm, lookupA_cons, hk]
            | none => simp [insStep, insertIfAbsent, hm2, lookupA_append, hm, lookupA_cons, hk]

theorem lookupA_parse_eq_stream (name : String) (doc : List RuleSet) (k : String) :
    lookupA (parseAppCatOutput name doc).incidentsDetails k =
      lookupA (incidentStream name doc) k := by
  rw [incidentsDetails_parse, lookupA_insStep_foldl]
  rfl

/-- Claim C4: when two incidents of one document produce the same incident
key, the parser keeps the first occurrence and discards the second (the
duplicate is only logged, never an error, and the incidents are not
merged): the parsed `incidentsDetails` maps the key to the first incident
with that key in traversal order. -/
theorem c4_duplicate_keeps_first (name : String) (doc : List RuleSet) (k : String)
    (v1 v2 : ValidateIncident) (pre mid post : List (String × ValidateIncident))
    (hstream : incidentStream name doc = pre ++ (k, v1) :: mid ++ (k, v2) :: post)
    (hfirst : ∀ w, (k, w) ∉ pre) :
    lookupA (parseAppCatOutput name doc).incidentsDetails k = some v1 := by
  rw [lookupA_parse_eq_stream, hstream]
  have hpre : lookupA pre k = none := by
    rw [lookupA_eq_none_iff]
    intro hmem
    obtain ⟨kv, hkv, hfst⟩ := List.mem_map.mp hmem
    exact hfirst kv.2 (by rwa [show (k, kv.2) = kv from Prod.ext hfst.symm rfl])
  simp [lookupA_append, hpre, lookupA_cons]

theorem bumpCount_sum (m : List (String × Nat)) (k : String) :
    ((bumpCount m k).map Prod.snd).sum = (m.map Prod.snd).sum + 1 := by
  induction m with
  | nil => simp [bumpCount]
  | cons kv rest ih =>
      by_cases h : kv.1 = k
      · simp [bumpCount, h]
        omega
      · simp [bumpCount, h, ih]
        omega

theorem count_eq_ruleSum_parse (name : String) (doc : List RuleSet) :
    (parseAppCatOutput name doc).incidentsCount =
      ((parseAppCatOutput name doc).ruleIncidentDetails.map Prod.snd).sum := by
  have hstep : ∀ (rulesetName ruleName : String) (st : ParseState) (inc : Incident),
      st.incidentsCount = (st.ruleIncidentDetails.map Prod.snd).sum →
      (processIncident name rulesetName ruleName st inc).incidentsCount =
        ((processIncident name rulesetName ruleName st inc).ruleIncidentDetails.map Prod.snd).sum := by
    intro rulesetName ruleName st inc h
    simp [processIncident, bumpCount_sum, h]
  have hviol : ∀ (rulesetName : String) (vs : List (String × Violation)) (st : ParseState),
      st.incidentsCount = (st.ruleIncidentDetails.map Prod.snd).sum →
      (processViolations name rulesetName st vs).incidentsCount =
        ((processViolations name rulesetName st vs).ruleIncidentDetails.map Prod.snd).sum := by
    intro rulesetName vs st h
    exact foldl_hold (fun s => s.incidentsCount = (s.ruleIncidentDetails.map Prod.snd).sum)
      _ (fun s p hs => foldl_hold _ _ (hstep rulesetName p.1) p.2.Incidents s hs) vs st h
  have hmain := foldl_hold (fun s => s.incidentsCount = (s.ruleIncidentDetails.map Prod.snd).sum)
    (fun st sec => processViolations name sec.Name st sec.Violations)
    (fun s sec hs => hviol sec.Name sec.Violations s hs) doc
    { incidentsCount := 0, ruleIncidentDetails := [], incidentsDetails := [] } rfl
  simpa [parseAppCatOutput] using hmain

theorem nodup_insStep_foldl :
    ∀ (l : List (String × ValidateIncident)) (m : List (String × ValidateIncident)),
      (m.map Prod.fst).Nodup → (((l.foldl insStep m)).map Prod.fst).Nodup := by
  intro l
  induction l with
  | nil => intro m hm; simpa using hm
  | cons kv t ih =>
      intro m hm
      simp only [List.foldl_cons]
      refine ih (insStep m kv) ?_
      cases hm2 : lookupA m kv.1 with
      | some w => simpa [insStep, insertIfAbsent, hm2] using hm
      | none =>
          have hnot : kv.1 ∉ m.map Prod.fst := (lookupA_eq_none_iff m kv.1).mp hm2
          simp [insStep, insertIfAbsent, hm2, List.nodup_append, hm]
          intro a ha
          exact hnot (by simpa using List.mem_map_of_mem Prod.fst ha)

/-- Claim C8: for every document, the total incident count equals the sum
over all rules of the per-rule occurrence counts, and the key set of the
resulting normalized set contains no duplicate keys. -/
theorem c8_count_sum_and_nodup (name : String) (doc : List RuleSet) :
    (parseAppCatOutput name doc).incidentsCount =
      ((parseAppCatOutput name doc).ruleIncidentDetails.map Prod.snd).sum
    ∧ ((parseAppCatOutput name doc).incidentsDetails.map Prod.fst).Nodup := by
  refine ⟨count_eq_ruleSum_parse name doc, ?_⟩
  rw [incidentsDetails_parse]
  exact nodup_insStep_foldl _ [] (by simp)

/-- A first incident for the duplicate-key scenario. -/
def sampleInc1 : Incident :=
  { Uri := "p/A", Message := "m1", CodeSnip := "c1", Variables := .nullv, LineNumber := 3 }

/-- A second incident with the same ruleSet/rule/location/line but a
different message, producing the same incident key. -/
def sampleInc2 : Incident :=
  { Uri := "p/A", Message := "m2", CodeSnip := "c2", Variables := .nullv, LineNumber := 3 }

/-- A document containing two incidents with the same incident key. -/
def sampleDupDoc : List RuleSet :=
  [{ Name := "rs", Violations := [("r", { Incidents := [sampleInc1, sampleInc2] })] }]

/-- Witness for C4: in the concrete duplicate-key document, the parsed set
maps the shared key to the first incident (message `m1`). -/
theorem c4_duplicate_keeps_first_witness :
    lookupA (parseAppCatOutput "p" sampleDupDoc).incidentsDetails "rs-r-p/A-3" =
      some (mkValidateIncident "rs" "r" sampleInc1) := by
  refine c4_duplicate_keeps_first "p" sampleDupDoc "rs-r-p/A-3"
    (mkValidateIncident "rs" "r" sampleInc1) (mkValidateIncident "rs" "r" sampleInc2)
    [] [] [] ?_ ?_
  · rfl
  · simp

theorem insStep_foldl_length_le :
    ∀ (l : List (String × ValidateIncident)) (m : List (String × ValidateIncident)),
      (l.foldl insStep m).length ≤ m.length + l.length := by
  intro l
  induction l with
  | nil => intro m; simp
  | cons kv t ih =>
      intro m
      simp only [List.foldl_cons, List.length_cons]
      have h1 := ih (insStep m kv)
      have h2 : (insStep m kv).length ≤ m.length + 1 := by
        cases h : lookupA m kv.1 <;> simp [insStep, insertIfAbsent, h]
      omega

theorem lookupA_append_single_eq_none_iff {A : Type} (m : List (String × A)) (kv : String × A)
    (k : String) :
    lookupA (m ++ [kv]) k = none ↔ lookupA m k = none ∧ ¬kv.1 = k := by
  rw [lookupA_append]
  cases h : lookupA m k with
  | some v => simp
  | none => by_cases h2 : kv.1 = k <;> simp [lookupA_cons, h2]

theorem insStep_foldl_length_eq_iff :
    ∀ (l : List (String × ValidateIncident)) (m : List (String × ValidateIncident)),
      (l.foldl insStep m).length = m.length + l.length ↔
        ((l.map Prod.fst).Nodup ∧ ∀ k ∈ l.map Prod.fst, lookupA m k = none) := by
  intro l
  induction l with
  | nil => intro m; simp
  | cons kv t ih =>
      intro m
      simp only [List.foldl_cons, List.length_cons, List.map_cons, List.nodup_cons,
        List.mem_cons]
      cases h : lookupA m kv.1 with
      | some v =>
          have hle := insStep_foldl_length_le t (insStep m kv)
          have hlen : (insStep m kv).length = m.length := by
            simp [insStep, insertIfAbsent, h]
          constructor
          · intro heq
            rw [hlen] at hle
            omega
          · rintro ⟨-, hall⟩
            have := hall kv.1 (Or.inl rfl)
            rw [h] at this
            exact absurd this (by simp)
      | none =>
          have hlen : (insStep m kv).length = m.length + 1 := by
            simp [insStep, insertIfAbsent, h]
          have harith : (t.foldl insStep (insStep m kv)).length = m.length + (t.length + 1) ↔
              (t.foldl insStep (insStep m kv)).length = (insStep m kv).length + t.length := by
            rw [hlen]; omega
          rw [harith, ih]
          have hmem : ∀ k, lookupA (insStep m kv) k = none ↔ lookupA m k = none ∧ ¬kv.1 = k := by
            intro k
            rw [show insStep m kv = m ++ [kv] by simp [insStep, insertIfAbsent, h]]
            exact lookupA_append_single_eq_none_iff m kv k
          constructor
          · rintro ⟨hnod, hall⟩
            refine ⟨⟨?_, hnod⟩, ?_⟩
            · intro hkin
              exact ((hmem kv.1).mp (hall kv.1 hkin)).2 rfl
            · intro k hk
              rcases hk with hk | hk
              · rw [hk]; exact h
              · exact ((hmem k).mp (hall k hk)).1
          · rintro ⟨⟨hnotin, hnod⟩, hall⟩
            refine ⟨hnod, ?_⟩
            intro k hk
            refine (hmem k).mpr ⟨hall k (Or.inr hk), ?_⟩
            intro hkv
            exact hnotin (hkv ▸ hk)

/-- Claim C10: the counts are incremented before the duplicate-key check,
so duplicate-keyed incidents are counted even though they are dropped from
the normalized set: the total count is the length of the full incident
stream, the number of stored keys never exceeds it, and they are equal
exactly when the document contains no duplicate keys. -/
theorem c10_duplicates_counted (name : String) (doc : List RuleSet) :
    (parseAppCatOutput name doc).incidentsCount = (incidentStream name doc).length
    ∧ (parseAppCatOutput name doc).incidentsDetails.length ≤
        (parseAppCatOutput name doc).incidentsCount
    ∧ ((parseAppCatOutput name doc).incidentsDetails.length =
          (parseAppCatOutput name doc).incidentsCount ↔
        ((incidentStream name doc).map Prod.fst).Nodup) := by
  have hc := incidentsCount_parse name doc
  have hd := incidentsDetails_parse name doc
  refine ⟨hc, ?_, ?_⟩
  · rw [hc, hd]
    simpa using insStep_foldl_length_le (incidentStream name doc) []
  · rw [hc, hd]
    simpa using insStep_foldl_length_eq_iff (incidentStream name doc) []

theorem newMsg_ne_missMsg (k1 k2 : String) : newMsg k1 ≠ missMsg k2 := by
  intro h
  have h2 : (['[', 'N'] : List Char) = ['[', 'M'] :=
    congrArg (fun s => s.data.take 2) h
  exact absurd h2 (by decide)

theorem newMsg_ne_wrongMsg (k1 k2 a b : String) : newMsg k1 ≠ wrongMsg k2 a b := by
  intro h
  have h2 : (['[', 'N'] : List Char) = ['[', 'W'] :=
    congrArg (fun s => s.data.take 2) h
  exact absurd h2 (by decide)

theorem missMsg_ne_wrongMsg (k1 k2 a b : String) : missMsg k1 ≠ wrongMsg k2 a b := by
  intro h
  have h2 : (['[', 'M'] : List Char) = ['[', 'W'] :=
    congrArg (fun s => s.data.take 2) h
  exact absurd h2 (by decide)

theorem lookupA_detailPart_not_mem (base : List (String × ValidateIncident)) :
    ∀ (cur : List (String × ValidateIncident)) (k : String), k ∉ cur.map Prod.fst →
      lookupA (cur.filterMap
        (fun kv => (validateDetail base kv.1 kv.2).map (fun d => (kv.1, d)))) k = none := by
  intro cur
  induction cur with
  | nil => intro k h; rfl
  | cons kv t ih =>
      intro k h
      simp only [List.map_cons, List.mem_cons] at h
      push_neg at h
      obtain ⟨h1, h2⟩ := h
      cases hd : validateDetail base kv.1 kv.2 with
      | some d =>
          simp only [List.filterMap_cons, hd, Option.map_some']
          rw [lookupA_cons]
          simp only [if_neg (Ne.symm h1)]
          exact ih k h2
      | none =>
          simp only [List.filterMap_cons, hd, Option.map_none']
          exact ih k h2

theorem lookupA_detailPart (base : List (String × ValidateIncident)) :
    ∀ (cur : List (String × ValidateIncident)) (k : String), (cur.map Prod.fst).Nodup →
      lookupA (cur.filterMap
        (fun kv => (validateDetail base kv.1 kv.2).map (fun d => (kv.1, d)))) k =
        match lookupA cur k with
        | some i => validateDetail base k i
        | none => none := by
  intro cur
  induction cur with
  | nil => intro k _; rfl
  | cons kv t ih =>
      intro k hnd
      simp only [List.map_cons, List.nodup_cons] at hnd
      obtain ⟨hnotin, hnd⟩ := hnd
      by_cases hk : kv.1 = k
      · subst hk
        rw [show lookupA (kv :: t) kv.1 = some kv.2 by simp [lookupA_cons]]
        cases hd : validateDetail base kv.1 kv.2 with
        | some d =>
            simp only [List.filterMap_cons, hd, Option.map_some']
            simp [lookupA_cons]
        | none =>
            simp only [List.filterMap_cons, hd, Option.map_none']
            exact lookupA_detailPart_not_mem base t kv.1 hnotin
      · rw [show lookupA (kv :: t) k = lookupA t k by simp [lookupA_cons, hk]]
        cases hd : validateDetail base kv.1 kv.2 with
        | some d =>
            simp only [List.filterMap_cons, hd, Option.map_some']
            rw [lookupA_cons]
            simp only [if_neg hk]
            exact ih k hnd
        | none =>
            simp only [List.filterMap_cons, hd, Option.map_none']
            exact ih k hnd

theorem lookupA_missPart (cur : List (String × ValidateIncident)) :
    ∀ (base : List (String × ValidateIncident)) (k : String),
      lookupA (base.filterMap (fun kv =>
        match lookupA cur kv.1 with
        | some _ => none
        | none => some (kv.1, missMsg kv.1))) k =
        match lookupA base k, lookupA cur k with
        | some _, none => some (missMsg k)
        | _, _ => none := by
  intro base
  induction base with
  | nil =>
      intro k
      cases lookupA cur k <;> rfl
  | cons kv t ih =>
      intro k
      by_cases hk : kv.1 = k
      · subst hk
        rw [show lookupA (kv :: t) kv.1 = some kv.2 by simp [lookupA_cons]]
        cases hcur : lookupA cur kv.1 with
        | some w =>
            simp only [List.filterMap_cons, hcur]
            rw [ih kv.1, hcur]
            cases lookupA t kv.1 <;> rfl
        | none =>
            simp only [List.filterMap_cons, hcur]
            simp [lookupA_cons]
      · rw [show lookupA (kv :: t) k = lookupA t k by simp [lookupA_cons, hk]]
        cases hcur : lookupA cur kv.1 with
        | some w =>
            simp only [List.filterMap_cons, hcur]
            exact ih k
        | none =>
            simp only [List.filterMap_cons, hcur]
            rw [lookupA_cons]
            simp only [if_neg hk]
            exact ih k

theorem runValidateDetails_lookupA (cur base : List (String × ValidateIncident)) (k : String)
    (hc : (cur.map Prod.fst).Nodup) :
    lookupA (runValidateDetails cur base) k =
      match lookupA cur k with
      | some i => validateDetail base k i
      | none =>
          match lookupA base k with
          | some _ => some (missMsg k)
          | none => none := by
  rw [runValidateDetails, lookupA_append, lookupA_detailPart base cur k hc, lookupA_missPart]
  cases hcur : lookupA cur k with
  | some i =>
      cases hd : validateDetail base k i with
      | some d => simp [hd]
      | none => cases lookupA base k <;> simp [hd]
  | none => cases lookupA base k <;> rfl

/-- Claim C1: the differ classifies every key of the current set as NEW
when absent from the baseline, as CHANGED when present but the `message`
fields differ (only the message is compared: the incidents `i` and `b`
below are arbitrary, so code snippet, variables and the other fields never
influence the classification), and as MATCHED (no recorded detail)
otherwise; every key of the baseline absent from the current set is
classified MISSING. -/
theorem c1_differ_classification (cur base : List (String × ValidateIncident)) (k : String)
    (hc : (cur.map Prod.fst).Nodup) :
    (∀ i, lookupA cur k = some i → lookupA base k = none →
        lookupA (runValidateDetails cur base) k = some (newMsg k))
    ∧ (∀ i b, lookupA cur k = some i → lookupA base k = some b → i.Message ≠ b.Message →
        lookupA (runValidateDetails cur base) k = some (wrongMsg k i.Message b.Message))
    ∧ (∀ i b, lookupA cur k = some i → lookupA base k = some b → i.Message = b.Message →
        lookupA (runValidateDetails cur base) k = none)
    ∧ (∀ b, lookupA cur k = none → lookupA base k = some b →
        lookupA (runValidateDetails cur base) k = some (missMsg k)) := by
  refine ⟨?_, ?_, ?_, ?_⟩
  · intro i hcur hbase
    rw [runValidateDetails_lookupA cur base k hc, hcur]
    simp [validateDetail, hbase]
  · intro i b hcur hbase hne
    rw [runValidateDetails_lookupA cur base k hc, hcur]
    simp [validateDetail, hbase, hne]
  · intro i b hcur hbase heq
    rw [runValidateDetails_lookupA cur base k hc, hcur]
    simp [validateDetail, hbase, heq]
  · intro b hcur hbase
    rw [runValidateDetails_lookupA cur base k hc, hcur, hbase]

/-- Witness for C1: a single current incident with a key absent from an
empty baseline is classified NEW. -/
theorem c1_differ_classification_witness :
    lookupA (runValidateDetails [("k1", mkValidateIncident "rs" "r" sampleInc1)] []) "k1" =
      some (newMsg "k1") :=
  (c1_differ_classification [("k1", mkValidateIncident "rs" "r" sampleInc1)] [] "k1"
    (by simp)).1 (mkValidateIncident "rs" "r" sampleInc1) rfl rfl

/-- Claim C9: the differ is anti-symmetric in NEW and MISSING: a key
classified NEW when diffing current against baseline is classified MISSING
when diffing baseline against current, and conversely. -/
theorem c9_new_missing_antisymmetric (cur base : List (String × ValidateIncident)) (k : String)
    (hc : (cur.map Prod.fst).Nodup) (hb : (base.map Prod.fst).Nodup) :
    lookupA (runValidateDetails cur base) k = some (newMsg k) ↔
      lookupA (runValidateDetails base cur) k = some (missMsg k) := by
  rw [runValidateDetails_lookupA cur base k hc, runValidateDetails_lookupA base cur k hb]
  cases hcur : lookupA cur k with
  | some i =>
      cases hbase : lookupA base k with
      | some b =>
          by_cases hmsg : i.Message = b.Message
          · simp [validateDetail, hbase, hcur, hmsg]
          · simp only [validateDetail, hbase, hcur]
            simp [hmsg, Ne.symm hmsg]
            exact iff_of_false (fun h => newMsg_ne_wrongMsg k k i.Message b.Message h.symm)
              (fun h => missMsg_ne_wrongMsg k k b.Message i.Message h.symm)
      | none =>
          simp [validateDetail, hbase, hcur]
  | none =>
      cases hbase : lookupA base k with
      | some b =>
          simp only [validateDetail, hbase, hcur]
          exact iff_of_false (fun h => newMsg_ne_missMsg k k (Option.some.inj h).symm)
            (fun h => newMsg_ne_missMsg k k (Option.some.inj h))
      | none => simp [hcur, hbase]

/-- Witness for C9: the key of the single incident is NEW when diffing
against the empty baseline, and MISSING in the reverse diff. -/
theorem c9_new_missing_antisymmetric_witness :
    lookupA (runValidateDetails [] [("k1", mkValidateIncident "rs" "r" sampleInc1)]) "k1" =
      some (missMsg "k1") :=
  (c9_new_missing_antisymmetric [("k1", mkValidateIncident "rs" "r" sampleInc1)] [] "k1"
    (by simp) (by simp)).mp rfl

theorem validateDetail_eq_none_iff (base : List (String × ValidateIncident)) (k : String)
    (i : ValidateIncident) :
    validateDetail base k i = none ↔
      (match lookupA base k with
       | none => false
       | some b => i.Message == b.Message) = true := by
  cases h : lookupA base k with
  | none => simp [validateDetail, h]
  | some b => by_cases hm : i.Message = b.Message <;> simp [validateDetail, h, hm]

theorem missEntry_eq_none_iff (cur : List (String × ValidateIncident)) (k : String) :
    (match lookupA cur k with
     | some _ => (none : Option (String × String))
     | none => some (k, missMsg k)) = none ↔ (lookupA cur k).isSome = true := by
  cases h : lookupA cur k <;> simp

theorem runValidateDetails_eq_nil_iff (cur base : List (String × ValidateIncident)) :
    runValidateDetails cur base = [] ↔ runValidateResult cur base = true := by
  rw [runValidateDetails, runValidateResult]
  rw [List.append_eq_nil, Bool.and_eq_true, List.all_eq_true, List.all_eq_true,
    List.filterMap_eq_nil_iff, List.filterMap_eq_nil_iff]
  constructor
  · rintro ⟨h1, h2⟩
    refine ⟨fun kv hkv => ?_, fun kv hkv => ?_⟩
    · have hmap := h1 kv hkv
      rw [Option.map_eq_none'] at hmap
      exact (validateDetail_eq_none_iff base kv.1 kv.2).mp hmap
    · exact (missEntry_eq_none_iff cur kv.1).mp (h2 kv hkv)
  · rintro ⟨h1, h2⟩
    refine ⟨fun kv hkv => ?_, fun kv hkv => ?_⟩
    · rw [Option.map_eq_none']
      exact (validateDetail_eq_none_iff base kv.1 kv.2).mpr (h1 kv hkv)
    · exact (missEntry_eq_none_iff cur kv.1).mpr (h2 kv hkv)

theorem result_check_iff (base : List (String × ValidateIncident)) (kv : String × ValidateIncident) :
    ((match lookupA base kv.1 with
      | none => false
      | some b => kv.2.Message == b.Message) = true) ↔
      (¬(lookupA base kv.1).isNone = true ∧
       ¬(match lookupA base kv.1 with
          | some b => kv.2.Message != b.Message
          | none => false) = true) := by
  cases h : lookupA base kv.1 with
  | none => simp
  | some b => by_cases hm : kv.2.Message = b.Message <;> simp [hm]

theorem isSome_iff_not_isNone {A : Type} (o : Option A) : o.isSome = true ↔ ¬o.isNone = true := by
  cases o <;> simp

theorem runValidateResult_iff_empty_classes (cur base : List (String × ValidateIncident)) :
    runValidateResult cur base = true ↔
      (newKeys cur base = [] ∧ changedKeys cur base = [] ∧ missingKeys cur base = []) := by
  rw [runValidateResult, Bool.and_eq_true, List.all_eq_true, List.all_eq_true,
    newKeys, changedKeys, missingKeys, List.map_eq_nil_iff, List.map_eq_nil_iff, List.map_eq_nil_iff,
    List.filter_eq_nil_iff, List.filter_eq_nil_iff, List.filter_eq_nil_iff]
  constructor
  · rintro ⟨h1, h2⟩
    refine ⟨fun kv hkv => ((result_check_iff base kv).mp (h1 kv hkv)).1,
      fun kv hkv => ((result_check_iff base kv).mp (h1 kv hkv)).2,
      fun kv hkv => ?_⟩
    exact ((isSome_iff_not_isNone (lookupA cur kv.1)).mp (h2 kv hkv))
  · rintro ⟨h1, h2, h3⟩
    refine ⟨fun kv hkv => (result_check_iff base kv).mpr ⟨h1 kv hkv, h2 kv hkv⟩,
      fun kv hkv => (isSome_iff_not_isNone (lookupA cur kv.1)).mpr (h3 kv hkv)⟩

theorem itemFAIL_ne_itemPASS (name1 name2 d : String) : itemFAIL name1 d ≠ itemPASS name2 := by
  intro h
  have h2 : (['-', ' ', '[', ' '] : List Char) = ['-', ' ', '[', 'x'] :=
    congrArg (fun s => s.data.take 4) h
  exact absurd h2 (by decide)

theorem mem_detailPart_iff (cur base : List (String × ValidateIncident)) (k : String) :
    k ∈ (cur.filterMap
        (fun kv => (validateDetail base kv.1 kv.2).map (fun d => (kv.1, d)))).map Prod.fst ↔
      ∃ kv, kv ∈ cur ∧ kv.1 = k ∧ ¬validateDetail base kv.1 kv.2 = none := by
  simp only [List.mem_map, List.mem_filterMap, Option.map_eq_some']
  constructor
  · rintro ⟨e, ⟨kv, hkv, d, hd, he⟩, hfst⟩
    subst he
    exact ⟨kv, hkv, hfst, by simp [hd]⟩
  · rintro ⟨kv, hkv, hfst, hne⟩
    cases hd : validateDetail base kv.1 kv.2 with
    | none => exact absurd hd hne
    | some d => exact ⟨(kv.1, d), ⟨kv, hkv, d, hd, rfl⟩, hfst⟩

theorem mem_missPart_iff (cur base : List (String × ValidateIncident)) (k : String) :
    k ∈ (base.filterMap (fun kv =>
        match lookupA cur kv.1 with
        | some _ => none
        | none => some (kv.1, missMsg kv.1))).map Prod.fst ↔
      ∃ kv, kv ∈ base ∧ kv.1 = k ∧ lookupA cur kv.1 = none := by
  simp only [List.mem_map, List.mem_filterMap]
  constructor
  · rintro ⟨e, ⟨kv, hkv, hmatch⟩, hfst⟩
    cases hcur : lookupA cur kv.1 with
    | some w =>
        rw [hcur] at hmatch
        exact absurd hmatch (by simp)
    | none =>
        rw [hcur] at hmatch
        have he : e = (kv.1, missMsg kv.1) := by simpa using hmatch.symm
        subst he
        exact ⟨kv, hkv, hfst, hcur⟩
  · rintro ⟨kv, hkv, hfst, hcur⟩
    exact ⟨(kv.1, missMsg kv.1), ⟨kv, hkv, by rw [hcur]⟩, hfst⟩

theorem validateDetail_ne_none_iff (base : List (String × ValidateIncident)) (k : String)
    (i : ValidateIncident) :
    ¬validateDetail base k i = none ↔
      ((lookupA base k).isNone = true ∨
       (match lookupA base k with
        | some b => i.Message != b.Message
        | none => false) = true) := by
  cases h : lookupA base k with
  | none => simp [validateDetail, h]
  | some b => by_cases hm : i.Message = b.Message <;> simp [validateDetail, h, hm]

theorem mem_newKeys_iff (cur base : List (String × ValidateIncident)) (k : String) :
    k ∈ newKeys cur base ↔
      ∃ kv, kv ∈ cur ∧ kv.1 = k ∧ (lookupA base kv.1).isNone = true := by
  simp only [newKeys, List.mem_map, List.mem_filter]
  constructor
  · rintro ⟨kv, ⟨hkv, hc⟩, hfst⟩
    exact ⟨kv, hkv, hfst, hc⟩
  · rintro ⟨kv, hkv, hfst, hc⟩
    exact ⟨kv, ⟨hkv, hc⟩, hfst⟩

theorem mem_changedKeys_iff (cur base : List (String × ValidateIncident)) (k : String) :
    k ∈ changedKeys cur base ↔
      ∃ kv, kv ∈ cur ∧ kv.1 = k ∧
        (match lookupA base kv.1 with
         | some b => kv.2.Message != b.Message
         | none => false) = true := by
  simp only [changedKeys, List.mem_map, List.mem_filter]
  constructor
  · rintro ⟨kv, ⟨hkv, hc⟩, hfst⟩
    exact ⟨kv, hkv, hfst, hc⟩
  · rintro ⟨kv, hkv, hfst, hc⟩
    exact ⟨kv, ⟨hkv, hc⟩, hfst⟩

theorem mem_missingKeys_iff (cur base : List (String × ValidateIncident)) (k : String) :
    k ∈ missingKeys cur base ↔
      ∃ kv, kv ∈ base ∧ kv.1 = k ∧ (lookupA cur kv.1).isNone = true := by
  simp only [missingKeys, List.mem_map, List.mem_filter]
  constructor
  · rintro ⟨kv, ⟨hkv, hc⟩, hfst⟩
    exact ⟨kv, hkv, hfst, hc⟩
  · rintro ⟨kv, hkv, hfst, hc⟩
    exact ⟨kv, ⟨hkv, hc⟩, hfst⟩

/-- Claim C3: the overall result of one comparison is pass (`true`) if and
only if the NEW, CHANGED and MISSING classifications are all empty; a run
with zero mismatches reports the PASS message, and any mismatch makes the
per-project result the FAIL message with a details block enumerating every
NEW/CHANGED/MISSING key. -/
theorem c3_pass_iff_no_mismatch (name : String) (cur base : List (String × ValidateIncident)) :
    (runValidateResult cur base = true ↔
      (newKeys cur base = [] ∧ changedKeys cur base = [] ∧ missingKeys cur base = []))
    ∧ (runCaseMessage name cur base = itemPASS name ↔ runValidateResult cur base = true)
    ∧ (runValidateResult cur base = false →
        runCaseMessage name cur base =
          itemFAIL name (itemDETAILS (detailsConcat (runValidateDetails cur base))))
    ∧ (∀ k, k ∈ (runValidateDetails cur base).map Prod.fst ↔
        (k ∈ newKeys cur base ∨ k ∈ changedKeys cur base ∨ k ∈ missingKeys cur base)) := by
  refine ⟨runValidateResult_iff_empty_classes cur base, ⟨?_, ?_⟩, ?_, ?_⟩
  · intro hmsg
    by_cases hemp : runValidateDetails cur base = []
    · exact (runValidateDetails_eq_nil_iff cur base).mp hemp
    · exfalso
      have hfail : runCaseMessage name cur base =
          itemFAIL name (itemDETAILS (detailsConcat (runValidateDetails cur base))) := by
        simp [runCaseMessage, List.isEmpty_iff, hemp]
      rw [hfail] at hmsg
      exact itemFAIL_ne_itemPASS name name _ hmsg
  · intro hres
    have hemp := (runValidateDetails_eq_nil_iff cur base).mpr hres
    simp [runCaseMessage, hemp]
  · intro hfalse
    have hne : ¬runValidateDetails cur base = [] := by
      intro h
      have := (runValidateDetails_eq_nil_iff cur base).mp h
      rw [hfalse] at this
      exact absurd this (by simp)
    simp [runCaseMessage, List.isEmpty_iff, hne]
  · intro k
    rw [runValidateDetails, List.map_append, List.mem_append,
      mem_detailPart_iff, mem_missPart_iff, mem_newKeys_iff, mem_changedKeys_iff,
      mem_missingKeys_iff]
    constructor
    · rintro (⟨kv, hkv, hfst, hne⟩ | ⟨kv, hkv, hfst, hcur⟩)
      · rcases (validateDetail_ne_none_iff base kv.1 kv.2).mp hne with h | h
        · exact Or.inl ⟨kv, hkv, hfst, h⟩
        · exact Or.inr (Or.inl ⟨kv, hkv, hfst, h⟩)
      · exact Or.inr (Or.inr ⟨kv, hkv, hfst, by simp [hcur]⟩)
    · rintro (⟨kv, hkv, hfst, h⟩ | ⟨kv, hkv, hfst, h⟩ | ⟨kv, hkv, hfst, h⟩)
      · exact Or.inl ⟨kv, hkv, hfst, (validateDetail_ne_none_iff base kv.1 kv.2).mpr (Or.inl h)⟩
      · exact Or.inl ⟨kv, hkv, hfst, (validateDetail_ne_none_iff base kv.1 kv.2).mpr (Or.inr h)⟩
      · exact Or.inr ⟨kv, hkv, hfst, by simpa [Option.isNone_iff_eq_none] using h⟩

/-- Witness for C3: with empty current and baseline sets there is no
mismatch and the per-project message is the PASS message. -/
theorem c3_pass_iff_no_mismatch_witness :
    runCaseMessage "tc" [] [] = itemPASS "tc" :=
  ((c3_pass_iff_no_mismatch "tc" [] []).2.1).mpr rfl

theorem exceptBind_ok {A B : Type} (a : A) (f : A → Except String B) :
    (do let x ← (Except.ok a : Except String A); f x) = f a := rfl

theorem exceptBind_error {A B : Type} (e : String) (f : A → Except String B) :
    (do let x ← (Except.error e : Except String A); f x) = Except.error e := rfl

/-- Counterexample for C6: an incident whose `lineNumber` is the
non-numeric scalar `"abc"` does cause a decode error in the typed parser
(`testcase.go` declares `LineNumber int`), aborting the parse instead of
being treated as unspecified. -/
theorem c6_counterexample :
    decodeIncidentTyped [("lineNumber", YamlValue.str "abc")] =
      .error (cannotUnmarshal "lineNumber" "int") := rfl

/-- Claim C6 as amended: the parser copies all fields verbatim except
`lineNumber`, which is decoded as an integer; an absent `lineNumber`
decodes to the unspecified value 0 without error, a numeric one decodes to
its value, but a non-numeric one is a decode error that aborts the parse
of the typed parser; only the older untyped parser (`main.go`,
`LineNumber interface{}`) stores a non-numeric value verbatim without
error. -/
theorem c6_line_number_decoding :
    (∀ (rulesetName ruleName : String) (inc : Incident),
        (mkValidateIncident rulesetName ruleName inc).Uri = inc.Uri
        ∧ (mkValidateIncident rulesetName ruleName inc).Message = inc.Message
        ∧ (mkValidateIncident rulesetName ruleName inc).CodeSnip = inc.CodeSnip
        ∧ (mkValidateIncident rulesetName ruleName inc).Variables = inc.Variables
        ∧ (mkValidateIncident rulesetName ruleName inc).LineNumber = inc.LineNumber)
    ∧ (∀ (kvs : List (String × YamlValue)) (inc : Incident),
        lookupA kvs "lineNumber" = none → decodeIncidentTyped kvs = .ok inc →
        inc.LineNumber = 0)
    ∧ (∀ (kvs : List (String × YamlValue)) (n : Int) (inc : Incident),
        lookupA kvs "lineNumber" = some (.intv n) → decodeIncidentTyped kvs = .ok inc →
        inc.LineNumber = n)
    ∧ (∀ s : String,
        decodeIncidentTyped [("lineNumber", YamlValue.str s)] =
          .error (cannotUnmarshal "lineNumber" "int"))
    ∧ (∀ (kvs : List (String × YamlValue)) (inc : IncidentU),
        decodeIncidentUntyped kvs = .ok inc →
        inc.LineNumber = decodeAnyField kvs "lineNumber") := by
  refine ⟨fun rulesetName ruleName inc => ⟨rfl, rfl, rfl, rfl, rfl⟩, ?_, ?_, fun s => rfl, ?_⟩
  · intro kvs inc hln hok
    cases h1 : decodeStringField kvs "uri" with
    | error e => simp [decodeIncidentTyped, h1, exceptBind_ok, exceptBind_error] at hok
    | ok uri =>
        cases h2 : decodeStringField kvs "message" with
        | error e => simp [decodeIncidentTyped, h1, h2, exceptBind_ok, exceptBind_error] at hok
        | ok message =>
            cases h3 : decodeStringField kvs "codeSnip" with
            | error e => simp [decodeIncidentTyped, h1, h2, h3, exceptBind_ok, exceptBind_error] at hok
            | ok codeSnip =>
                simp [decodeIncidentTyped, h1, h2, h3, decodeIntField, hln, exceptBind_ok, exceptBind_error] at hok
                rw [← hok]
  · intro kvs n inc hln hok
    cases h1 : decodeStringField kvs "uri" with
    | error e => simp [decodeIncidentTyped, h1, exceptBind_ok, exceptBind_error] at hok
    | ok uri =>
        cases h2 : decodeStringField kvs "message" with
        | error e => simp [decodeIncidentTyped, h1, h2, exceptBind_ok, exceptBind_error] at hok
        | ok message =>
            cases h3 : decodeStringField kvs "codeSnip" with
            | error e => simp [decodeIncidentTyped, h1, h2, h3, exceptBind_ok, exceptBind_error] at hok
            | ok codeSnip =>
                simp [decodeIncidentTyped, h1, h2, h3, decodeIntField, hln, exceptBind_ok, exceptBind_error] at hok
                rw [← hok]
  · intro kvs inc hok
    cases h1 : decodeStringField kvs "uri" with
    | error e => simp [decodeIncidentUntyped, h1, exceptBind_ok, exceptBind_error] at hok
    | ok uri =>
        cases h2 : decodeStringField kvs "message" with
        | error e => simp [decodeIncidentUntyped, h1, h2, exceptBind_ok, exceptBind_error] at hok
        | ok message =>
            cases h3 : decodeStringField kvs "codeSnip" with
            | error e => simp [decodeIncidentUntyped, h1, h2, h3, exceptBind_ok, exceptBind_error] at hok
            | ok codeSnip =>
                simp [decodeIncidentUntyped, h1, h2, h3, exceptBind_ok, exceptBind_error] at hok
                rw [← hok]

/-- Witness for C6 (amended): a numeric `lineNumber` decodes to its value. -/
theorem c6_line_number_decoding_witness :
    decodeIncidentTyped [("lineNumber", YamlValue.intv 5)] =
      .ok { Uri := "", Message := "", CodeSnip := "", Variables := .nullv, LineNumber := 5 }
    ∧ ({ Uri := "", Message := "", CodeSnip := "", Variables := .nullv,
          LineNumber := 5 } : Incident).LineNumber = 5 :=
  ⟨rfl, c6_line_number_decoding.2.2.1 [("lineNumber", YamlValue.intv 5)] 5
    { Uri := "", Message := "", CodeSnip := "", Variables := .nullv, LineNumber := 5 } rfl rfl⟩

theorem lookupA_setAssoc_same {A : Type} (m : List (String × A)) (k : String) (v : A) :
    lookupA (setAssoc m k v) k = some v := by
  induction m with
  | nil => simp [setAssoc, lookupA_cons]
  | cons kv rest ih =>
      by_cases h : kv.1 = k
      · simp [setAssoc, h, lookupA_cons]
      · simp [setAssoc, h, lookupA_cons, ih]

theorem lookupA_setAssoc_other {A : Type} (m : List (String × A)) (k k2 : String) (v : A)
    (hne : ¬k = k2) : lookupA (setAssoc m k v) k2 = lookupA m k2 := by
  induction m with
  | nil => simp [setAssoc, lookupA_cons, hne]
  | cons kv rest ih =>
      by_cases h : kv.1 = k
      · simp [setAssoc, h, lookupA_cons, hne]
      · simp [setAssoc, h, lookupA_cons, ih]

theorem map_fst_setAssoc_mem {A : Type} (m : List (String × A)) (k : String) (v : A)
    (hmem : k ∈ m.map Prod.fst) : (setAssoc m k v).map Prod.fst = m.map Prod.fst := by
  induction m with
  | nil => simp at hmem
  | cons kv rest ih =>
      by_cases h : kv.1 = k
      · simp [setAssoc, h]
      · simp only [List.map_cons, List.mem_cons] at hmem
        rcases hmem with hmem | hmem
        · exact absurd hmem.symm h
        · simp [setAssoc, h, ih hmem]

theorem matrixCell_addRuleCount (g : List (String × List (String × Nat))) (t : String)
    (rc : String × Nat) (r t2 : String) :
    matrixCell (addRuleCount t g rc) r t2 =
      if r = rc.1 ∧ t2 = t then rc.2 else matrixCell g r t2 := by
  cases hg : lookupA g rc.1 with
  | none =>
      by_cases hr : r = rc.1
      · subst hr
        by_cases ht : t2 = t
        · subst ht
          simp [matrixCell, addRuleCount, hg, lookupA_append, lookupA_cons]
        · simp [matrixCell, addRuleCount, hg, lookupA_append, lookupA_cons, ht, Ne.symm ht]
      · simp only [addRuleCount, hg]
        rw [matrixCell, lookupA_append]
        cases hgr : lookupA g r with
        | some th => simp [matrixCell, hgr, hr]
        | none => simp [matrixCell, hgr, hr, lookupA_cons, Ne.symm hr]
  | some th =>
      by_cases hr : r = rc.1
      · subst hr
        rw [matrixCell, addRuleCount, hg, lookupA_setAssoc_same]
        by_cases ht : t2 = t
        · subst ht
          simp [lookupA_setAssoc_same, matrixCell]
        · have hso := lookupA_setAssoc_other th t t2 rc.2 (Ne.symm ht)
          simp [matrixCell, hg, ht, hso]
      · rw [matrixCell, addRuleCount, hg,
          lookupA_setAssoc_other g rc.1 r (setAssoc th t rc.2) (Ne.symm hr)]
        simp [matrixCell, hr]

theorem matrixCell_addProject (t : String) :
    ∀ (rd : List (String × Nat)) (g : List (String × List (String × Nat))) (r t2 : String),
      (rd.map Prod.fst).Nodup →
      matrixCell (addProject g t rd) r t2 =
        if t2 = t then
          match lookupA rd r with
          | some c => c
          | none => matrixCell g r t2
        else matrixCell g r t2 := by
  intro rd
  induction rd with
  | nil =>
      intro g r t2 _
      by_cases h : t2 = t <;> simp [addProject, h]
  | cons rc rest ih =>
      intro g r t2 hnd
      simp only [List.map_cons, List.nodup_cons] at hnd
      obtain ⟨hnotin, hnd⟩ := hnd
      have hstep : addProject g t (rc :: rest) = addProject (addRuleCount t g rc) t rest := by
        simp [addProject]
      rw [hstep, ih (addRuleCount t g rc) r t2 hnd, matrixCell_addRuleCount]
      by_cases ht : t2 = t
      · by_cases hr : r = rc.1
        · have hrest : lookupA rest rc.1 = none := (lookupA_eq_none_iff rest rc.1).mpr hnotin
          simp [ht, hr, lookupA_cons, hrest]
        · simp only [ht, if_true]
          rw [lookupA_cons]
          simp only [if_neg (Ne.symm hr)]
          cases lookupA rest r with
          | some c => simp
          | none => simp [hr, ht]
      · simp [ht]

theorem matrixCell_foldl_projects (r t : String) :
    ∀ (ps : List (String × List (String × Nat))) (g : List (String × List (String × Nat))),
      (ps.map Prod.fst).Nodup → (∀ p ∈ ps, (p.2.map Prod.fst).Nodup) →
      matrixCell (ps.foldl (fun g p => addProject g p.1 p.2) g) r t =
        match lookupA ps t with
        | some rd =>
            match lookupA rd r with
            | some c => c
            | none => matrixCell g r t
        | none => matrixCell g r t := by
  intro ps
  induction ps with
  | nil => intro g _ _; rfl
  | cons p rest ih =>
      intro g hpn hrn
      simp only [List.map_cons, List.nodup_cons] at hpn
      obtain ⟨hnotin, hpn⟩ := hpn
      simp only [List.foldl_cons]
      rw [ih (addProject g p.1 p.2) hpn (fun q hq => hrn q (List.mem_cons_of_mem p hq)),
        matrixCell_addProject p.1 p.2 g r t (hrn p (List.mem_cons_self p rest))]
      by_cases ht : p.1 = t
      · have hrest : lookupA rest t = none := by
          rw [lookupA_eq_none_iff]
          rw [← ht]
          exact hnotin
        rw [hrest, lookupA_cons]
        simp only [if_pos ht, if_pos ht.symm]
      · have hne : ¬t = p.1 := fun h => ht h.symm
        rw [lookupA_cons]
        simp only [if_neg ht, if_neg hne]

theorem map_fst_addRuleCount (t : String) (g : List (String × List (String × Nat)))
    (rc : String × Nat) :
    (addRuleCount t g rc).map Prod.fst =
      if rc.1 ∈ g.map Prod.fst then g.map Prod.fst else g.map Prod.fst ++ [rc.1] := by
  cases hg : lookupA g rc.1 with
  | none =>
      have hnot : rc.1 ∉ g.map Prod.fst := (lookupA_eq_none_iff g rc.1).mp hg
      simp [addRuleCount, hg, hnot]
  | some th =>
      have hmem : rc.1 ∈ g.map Prod.fst := by
        by_contra hnot
        rw [(lookupA_eq_none_iff g rc.1).mpr hnot] at hg
        exact absurd hg (by simp)
      simp [addRuleCount, hg, hmem, map_fst_setAssoc_mem g rc.1 _ hmem]

theorem nodup_keys_addRuleCount (t : String) (g : List (String × List (String × Nat)))
    (rc : String × Nat) (h : (g.map Prod.fst).Nodup) :
    ((addRuleCount t g rc).map Prod.fst).Nodup := by
  rw [map_fst_addRuleCount]
  by_cases hm : rc.1 ∈ g.map Prod.fst
  · simpa [hm] using h
  · simp [hm, List.nodup_append, h]

theorem mem_keys_addRuleCount (t : String) (g : List (String × List (String × Nat)))
    (rc : String × Nat) (r : String) :
    r ∈ (addRuleCount t g rc).map Prod.fst ↔ r ∈ g.map Prod.fst ∨ r = rc.1 := by
  rw [map_fst_addRuleCount]
  by_cases hm : rc.1 ∈ g.map Prod.fst
  · simp only [if_pos hm]
    constructor
    · exact Or.inl
    · rintro (h | h)
      · exact h
      · exact h ▸ hm
  · simp [hm, List.mem_append]

theorem nodup_keys_addProject (t : String) :
    ∀ (rd : List (String × Nat)) (g : List (String × List (String × Nat))),
      (g.map Prod.fst).Nodup → ((addProject g t rd).map Prod.fst).Nodup := by
  intro rd
  induction rd with
  | nil => intro g h; simpa [addProject] using h
  | cons rc rest ih =>
      intro g h
      have hstep : addProject g t (rc :: rest) = addProject (addRuleCount t g rc) t rest := by
        simp [addProject]
      rw [hstep]
      exact ih (addRuleCount t g rc) (nodup_keys_addRuleCount t g rc h)

theorem mem_keys_addProject (t : String) :
    ∀ (rd : List (String × Nat)) (g : List (String × List (String × Nat))) (r : String),
      r ∈ (addProject g t rd).map Prod.fst ↔ r ∈ g.map Prod.fst ∨ r ∈ rd.map Prod.fst := by
  intro rd
  induction rd with
  | nil => intro g r; simp [addProject]
  | cons rc rest ih =>
      intro g r
      have hstep : addProject g t (rc :: rest) = addProject (addRuleCount t g rc) t rest := by
        simp [addProject]
      rw [hstep, ih (addRuleCount t g rc) r, mem_keys_addRuleCount]
      simp only [List.map_cons, List.mem_cons]
      constructor
      · rintro ((h | h) | h)
        · exact Or.inl h
        · exact Or.inr (Or.inl h)
        · exact Or.inr (Or.inr h)
      · rintro (h | h | h)
        · exact Or.inl (Or.inl h)
        · exact Or.inl (Or.inr h)
        · exact Or.inr h

theorem nodup_keys_aggregateAll (projects : List (String × List (String × Nat))) :
    ((aggregateAll projects).map Prod.fst).Nodup := by
  rw [aggregateAll]
  have h := foldl_hold (fun g => (g.map Prod.fst).Nodup)
    (fun g p => addProject g p.1 p.2)
    (fun g p hg => nodup_keys_addProject p.1 p.2 g hg) projects [] (by simp)
  exact h

theorem mem_keys_aggregateAll (projects : List (String × List (String × Nat))) (r : String) :
    r ∈ (aggregateAll projects).map Prod.fst ↔ ∃ p ∈ projects, r ∈ p.2.map Prod.fst := by
  suffices h : ∀ (ps : List (String × List (String × Nat))) (g : List (String × List (String × Nat))),
      r ∈ (ps.foldl (fun g p => addProject g p.1 p.2) g).map Prod.fst ↔
        r ∈ g.map Prod.fst ∨ ∃ p ∈ ps, r ∈ p.2.map Prod.fst by
    rw [aggregateAll, h projects []]
    simp
  intro ps
  induction ps with
  | nil => intro g; simp
  | cons p rest ih =>
      intro g
      simp only [List.foldl_cons]
      rw [ih (addProject g p.1 p.2), mem_keys_addProject]
      simp only [List.mem_cons]
      constructor
      · rintro ((h | h) | ⟨q, hq, hr⟩)
        · exact Or.inl h
        · exact Or.inr ⟨p, Or.inl rfl, h⟩
        · exact Or.inr ⟨q, Or.inr hq, hr⟩
      · rintro (h | ⟨q, hq | hq, hr⟩)
        · exact Or.inl (Or.inl h)
        · exact Or.inl (Or.inr (hq ▸ hr))
        · exact Or.inr ⟨q, hq, hr⟩

theorem str_data_append (a b : String) : (a ++ b).data = a.data ++ b.data := rfl

theorem str_append_assoc (a b c : String) : a ++ b ++ c = a ++ (b ++ c) := by
  apply String.ext
  simp only [str_data_append, List.append_assoc]

theorem rowValue0_cells :
    ∀ (targetList : List String) (rule : String) (targetHash : List (String × Nat)),
      rowValue0 targetList rule targetHash =
        targetList.foldl (fun acc t =>
          acc ++ "," ++ toString (match lookupA targetHash t with
            | some c => c
            | none => 0)) rule := by
  intro targetList
  induction targetList with
  | nil => intro rule th; rfl
  | cons t rest ih =>
      intro rule th
      have h1 : rowValue0 (t :: rest) rule th =
          rowValue0 rest (match lookupA th t with
            | some c => rule ++ "," ++ toString c
            | none => rule ++ ",0") th := by
        rw [rowValue0, rowValue0, List.foldl_cons]
      rw [h1, ih]
      simp only [List.foldl_cons]
      congr 1
      cases hl : lookupA th t with
      | some c => rfl
      | none =>
          show rule ++ ",0" = rule ++ "," ++ toString (0 : Nat)
          rw [str_append_assoc]
          rfl

/-- Counterexample for C7: the CSV renderer of `src/main.go` in the `src`
tree writes a blank cell `", "` rather than `",0"` when a project reports
no occurrences of a rule: for one project `p1` with no counts, the row for
rule `r` is `"r, "`, not `"r,0"`. -/
theorem c7_blank_cell_counterexample :
    rowValueBlank ["p1"] "r" [("p1", [])] = "r, " ∧ ("r, " : String) ≠ "r,0" :=
  ⟨rfl, by decide⟩

/-- Claim C7 as amended: the aggregator folds the per-project rule→count
maps into a matrix with one row per rule (keys are distinct, and a rule has
a row exactly when some project reports it) and one column per project,
where the (rule, project) cell is the project's reported count and 0 when
that project reports no occurrences; the `part_000` CSV renderer writes
this 0 cell, while the `src/main.go` renderer writes a blank cell `", "`
instead of 0 (see the counterexample). -/
theorem c7_matrix_aggregation (projects : List (String × List (String × Nat)))
    (hpn : (projects.map Prod.fst).Nodup)
    (hrn : ∀ p ∈ projects, (p.2.map Prod.fst).Nodup) :
    (∀ rule target,
        matrixCell (aggregateAll projects) rule target =
          match lookupA projects target with
          | some rd =>
              match lookupA rd rule with
              | some c => c
              | none => 0
          | none => 0)
    ∧ ((aggregateAll projects).map Prod.fst).Nodup
    ∧ (∀ rule, rule ∈ (aggregateAll projects).map Prod.fst ↔
        ∃ p ∈ projects, rule ∈ p.2.map Prod.fst)
    ∧ (∀ (targetList : List String) (rule : String) (targetHash : List (String × Nat)),
        rowValue0 targetList rule targetHash =
          targetList.foldl (fun acc t =>
            acc ++ "," ++ toString (match lookupA targetHash t with
              | some c => c
              | none => 0)) rule) := by
  refine ⟨?_, nodup_keys_aggregateAll projects, mem_keys_aggregateAll projects, rowValue0_cells⟩
  intro rule target
  rw [aggregateAll, matrixCell_foldl_projects rule target projects [] hpn hrn]
  cases hp : lookupA projects target with
  | none => simp [matrixCell]
  | some rd => cases lookupA rd rule <;> simp [matrixCell]

/-- Witness for C7 (amended): a single project reporting rule `r` twice
yields the cell 2, and a project without the rule yields the cell 0. -/
theorem c7_matrix_aggregation_witness :
    matrixCell (aggregateAll [("p1", [("r", 2)]), ("p2", [])]) "r" "p1" = 2
    ∧ matrixCell (aggregateAll [("p1", [("r", 2)]), ("p2", [])]) "r" "p2" = 0 := by
  have h := (c7_matrix_aggregation [("p1", [("r", 2)]), ("p2", [])] (by decide)
    (by decide)).1
  exact ⟨by rw [h "r" "p1"]; rfl, by rw [h "r" "p2"]; rfl⟩
